import Mathlib

/-!
Shallow embedding of `src/client/voice/player/AudioPlayer.js`: the stream
registry of a voice connection.  The registry (`this.streams`) is a
discord.js `Collection`, i.e. an insertion-ordered map (a JavaScript `Map`
subclass with a `last()` accessor).  `Collection` itself is not among the
provided sources, so it is modelled from the spec ("ordered mapping from
stream handle to StreamEntry, insertion order preserved, supports 'most
recently inserted' lookup") together with standard JavaScript `Map`
semantics, as an association list in insertion order.

Side effects that cross the component boundary (`transcoder.kill()`,
`dispatcher.destroy('end')`, `this.emit('error' | 'warn')`,
`voiceConnection.setSpeaking`) are recorded in an action log, most recent
first.  Event-handler registrations (`on('speaking' | 'end' | 'error')`)
are recorded as wires; the body of each registered closure is embedded as
a `fire...` function, transcribed from the corresponding arrow function in
the source.  JavaScript object identity (`===` on entry objects) is
modelled by a fresh `oid` drawn from an allocation counter.  Fields of the
player that no modelled operation reads (`streamingData`, `opusEncoder`)
are omitted.
-/

/-- A JavaScript stream object reference. `ext n` is a caller-supplied
stream object; `out oid` is the `transcoder.output` stream object that
`prism.transcode` creates fresh (tagged with the transcoder's identity),
hence always distinct from every caller-supplied stream. -/
inductive Handle where
  | ext (n : Nat)
  | out (oid : Nat)
deriving DecidableEq, Repr

/-- One registry value: the object `{ transcoder, input, dispatcher }`
(or `{ dispatcher, input }`) stored in `this.streams`.  `oid` models the
JavaScript object identity of this entry object; `transcoder` and
`dispatcher` hold the identities of the attached transcoder / dispatcher
objects, `none` standing for an absent (undefined) field. -/
structure Entry where
  oid : Nat
  input : Handle
  transcoder : Option Nat := none
  dispatcher : Option Nat := none
deriving DecidableEq, Repr

/-- An observable side effect of the player, recorded in a log (most
recent first). -/
inductive Act where
  | killTranscoder (t : Nat)
  | destroyDispatcher (d : Nat) (reason : String)
  | emitError (e : Nat)
  | emitWarn (msg : String)
  | setSpeaking (v : Bool)
deriving DecidableEq, Repr

/-- An event-handler registration made by the player: which closure the
source attaches to which emitter.  The closure bodies themselves are the
`fire...` functions below. -/
inductive Wire where
  | dispatcherSpeaking (d : Nat)
  | dispatcherEnd (d : Nat) (key : Handle)
  | dispatcherError (d : Nat) (key : Handle)
  | transcoderError (t : Nat) (key : Handle)
deriving DecidableEq, Repr

/-- A JavaScript runtime failure; `typeError` models reading a property
of `undefined`. -/
inductive JsError where
  | typeError
deriving DecidableEq, Repr

/-- The resolved playback options after the destructuring defaults
`{ seek = 0, volume = 1, passes = 1 }` have been applied. -/
structure StreamOptions where
  seek : Nat
  volume : Nat
  passes : Nat
deriving DecidableEq, Repr

/-- The options argument as passed by a caller: each field may be absent
(undefined), in which case the destructuring default applies.  A wholly
absent argument is `{}` (all fields `none`), matching the `= {}` default. -/
structure PlayOptionsArg where
  seek : Option Nat := none
  volume : Option Nat := none
  passes : Option Nat := none
deriving DecidableEq, Repr

/-- Applies the destructuring defaults `{ seek = 0, volume = 1, passes = 1 }`. -/
def resolveOptions (o : PlayOptionsArg) : StreamOptions :=
  { seek := o.seek.getD 0, volume := o.volume.getD 1, passes := o.passes.getD 1 }

/-- Re-wraps resolved options as the argument object `{ seek, volume,
passes }` that `playUnknownStream` forwards to `playPCMStream`. -/
def StreamOptions.toArg (o : StreamOptions) : PlayOptionsArg :=
  { seek := some o.seek, volume := some o.volume, passes := some o.passes }

/-- The `StreamDispatcher` object created by `new StreamDispatcher(this,
stream, options)`: its identity, the PCM stream it is bound to, and its
options.  Its pacing internals are out of scope for the registry. -/
structure StreamDispatcher where
  oid : Nat
  boundStream : Handle
  options : StreamOptions
deriving DecidableEq, Repr

/-- The transcoder object returned by `prism.transcode`: its identity,
the media it decodes, the ffmpeg argument list it was configured with,
and its fresh `output` PCM stream. -/
structure Transcoder where
  oid : Nat
  media : Handle
  args : List String
  output : Handle
deriving DecidableEq, Repr

/-- Modelled from the spec: the registry `Collection` (insertion-ordered
map).  `collGet` is `Map.get`: the value at the first (only) matching key. -/
def collGet (c : List (Handle × Entry)) (k : Handle) : Option Entry :=
  match c with
  | [] => none
  | (k', v) :: rest => if k' = k then some v else collGet rest k

/-- Modelled from the spec: `Map.has`. -/
def collHas (c : List (Handle × Entry)) (k : Handle) : Bool :=
  (collGet c k).isSome

/-- Modelled from the spec: `Map.set` — updates an existing key in place
(keeping its insertion position) or appends a new key at the end. -/
def collSet (c : List (Handle × Entry)) (k : Handle) (v : Entry) :
    List (Handle × Entry) :=
  match c with
  | [] => [(k, v)]
  | (k', v') :: rest =>
    if k' = k then (k', v) :: rest else (k', v') :: collSet rest k v

/-- Modelled from the spec: `Map.delete` — removes the entry for `k`, if
present. -/
def collDelete (c : List (Handle × Entry)) (k : Handle) :
    List (Handle × Entry) :=
  match c with
  | [] => []
  | (k', v') :: rest =>
    if k' = k then rest else (k', v') :: collDelete rest k

/-- Modelled from the spec: `Map.keys()`, in insertion order. -/
def collKeys (c : List (Handle × Entry)) : List Handle :=
  c.map (·.1)

/-- Modelled from the spec: `Collection.last()` — the most recently
inserted value, or absent (undefined) on an empty collection. -/
def collLast (c : List (Handle × Entry)) : Option Entry :=
  c.getLast?.map (·.2)

/-- In-place mutation of the entry object stored at `k` (JavaScript
`this.streams.get(k).field = ...`): object identity is preserved. -/
def collUpdate (c : List (Handle × Entry)) (k : Handle) (f : Entry → Entry) :
    List (Handle × Entry) :=
  c.map (fun kv => if kv.1 = k then (kv.1, f kv.2) else kv)

/-- JavaScript strict equality `===` between two possibly-undefined entry
objects: both undefined, or the same object (same identity). -/
def jsEntryEq (a b : Option Entry) : Bool :=
  match a, b with
  | some x, some y => x.oid == y.oid
  | none, none => true
  | _, _ => false

/-- The registry state of one `AudioPlayer`: the `streams` collection, an
allocation counter for fresh object identities, the number of listeners
registered on the player's own `error` event (`this.listenerCount('error')`),
the handler wires, the allocated transcoder objects, and the side-effect
log (most recent first). -/
structure AudioPlayer where
  streams : List (Handle × Entry) := []
  nextOid : Nat := 0
  errorListeners : Nat := 0
  wires : List Wire := []
  transcoders : List Transcoder := []
  log : List Act := []
deriving DecidableEq, Repr

namespace AudioPlayer

/-- Records one observable side effect. -/
def emitAct (p : AudioPlayer) (a : Act) : AudioPlayer :=
  { p with log := a :: p.log }

/-- `get currentTranscoder() { return this.streams.last().transcoder; }` —
on an empty registry `last()` is undefined and the property read throws a
`TypeError`. -/
def currentTranscoder (p : AudioPlayer) : Except JsError (Option Nat) :=
  match collLast p.streams with
  | none => .error .typeError
  | some e => .ok e.transcoder

/-- `destroyStream(stream)`: looks the handle up; if absent, returns with
no effect; otherwise kills the transcoder if present, destroys the
dispatcher with reason `'end'` if present, and deletes the entry. -/
def destroyStream (p : AudioPlayer) (stream : Handle) : AudioPlayer :=
  match collGet p.streams stream with
  | none => p
  | some data =>
    let p1 := match data.transcoder with
      | some t => p.emitAct (.killTranscoder t)
      | none => p
    let p2 := match data.dispatcher with
      | some d => p1.emitAct (.destroyDispatcher d "end")
      | none => p1
    { p2 with streams := collDelete p2.streams stream }

/-- The `except` argument of `destroyAllStreams`: a stream handle, the
sentinel `true` (keep the most recently inserted entry), or absent
(undefined). -/
inductive ExceptArg where
  | handle (h : Handle)
  | keepLast
  | absent
deriving DecidableEq, Repr

/-- The two `continue` guards of the loop body, evaluated against the
current registry: `except === stream`, and
`except === true && this.streams.get(stream) === this.streams.last()`. -/
def exceptSkip (except : ExceptArg) (k : Handle)
    (c : List (Handle × Entry)) : Bool :=
  match except with
  | .handle h => h == k
  | .keepLast => jsEntryEq (collGet c k) (collLast c)
  | .absent => false

/-- The loop of `destroyAllStreams` over a key list.  The source iterates
a live `this.streams.keys()` iterator, but the only mutation during the
loop is `destroyStream` deleting the key currently being visited, so the
iterator yields exactly the keys present when the loop started; the loop
is therefore embedded as structural recursion over that initial key list,
with both guards re-evaluated against the current registry each step. -/
def destroyAllStreamsGo (p : AudioPlayer) (except : ExceptArg) :
    List Handle → AudioPlayer
  | [] => p
  | k :: ks =>
    if exceptSkip except k p.streams then destroyAllStreamsGo p except ks
    else destroyAllStreamsGo (p.destroyStream k) except ks

/-- `destroyAllStreams(except)`: destroys every stream whose key the
guards do not skip. -/
def destroyAllStreams (p : AudioPlayer) (except : ExceptArg) : AudioPlayer :=
  destroyAllStreamsGo p except (collKeys p.streams)

/-- `this.prism.transcode({ type: 'ffmpeg', media, ffmpegArguments })`.
Modelled from the spec: the Transcode Adapter starts a decode process for
`media` with the given arguments and exposes a fresh PCM `output` stream
object. -/
def prismTranscode (p : AudioPlayer) (media : Handle) (args : List String) :
    AudioPlayer × Transcoder :=
  let t : Transcoder :=
    { oid := p.nextOid, media, args, output := .out p.nextOid }
  ({ p with nextOid := p.nextOid + 1, transcoders := t :: p.transcoders }, t)

/-- `playPCMStream(stream, { seek = 0, volume = 1, passes = 1 } = {})`:
destroys all other streams, creates a dispatcher for `stream`, wires its
`speaking` handler, ensures a registry entry exists for `stream`, stores
the dispatcher in that entry, wires `end` and `error` to entry removal,
and returns the dispatcher. -/
def playPCMStream (p : AudioPlayer) (stream : Handle)
    (optsArg : PlayOptionsArg) : AudioPlayer × StreamDispatcher :=
  let options := resolveOptions optsArg
  let p := p.destroyAllStreams (.handle stream)
  let dispatcher : StreamDispatcher :=
    { oid := p.nextOid, boundStream := stream, options }
  let p := { p with nextOid := p.nextOid + 1 }
  let p := { p with wires := Wire.dispatcherSpeaking dispatcher.oid :: p.wires }
  let p :=
    if collHas p.streams stream then p
    else
      { p with
        nextOid := p.nextOid + 1,
        streams := collSet p.streams stream
          { oid := p.nextOid, input := stream,
            dispatcher := some dispatcher.oid } }
  let p := { p with
    streams := collUpdate p.streams stream
      (fun e => { e with dispatcher := some dispatcher.oid }) }
  let p := { p with
    wires := Wire.dispatcherError dispatcher.oid stream ::
      Wire.dispatcherEnd dispatcher.oid stream :: p.wires }
  (p, dispatcher)

/-- `ffmpegArguments`: the canonical-PCM output configuration handed to
every transcoder (signed 16-bit little-endian, 48000 Hz, 2 channels). -/
def ffmpegArguments : List String :=
  ["-analyzeduration", "0", "-loglevel", "0", "-f", "s16le",
   "-ar", "48000", "-ac", "2"]

/-- `playUnknownStream(stream, { seek = 0, volume = 1, passes = 1 } = {})`:
starts a transcoder for `stream` with `ffmpegArguments.concat(['-ss',
String(seek)])`, registers `transcoder.output` with the transcoder and the
original input, wires the transcoder's `error` handler (which captures the
original `stream`), and delegates to `playPCMStream` on `transcoder.output`
with the resolved options. -/
def playUnknownStream (p : AudioPlayer) (stream : Handle)
    (optsArg : PlayOptionsArg) : AudioPlayer × StreamDispatcher :=
  let options := resolveOptions optsArg
  let (p, transcoder) :=
    p.prismTranscode stream (ffmpegArguments ++ ["-ss", toString options.seek])
  let p := { p with
    nextOid := p.nextOid + 1,
    streams := collSet p.streams transcoder.output
      { oid := p.nextOid, input := stream,
        transcoder := some transcoder.oid } }
  let p := { p with
    wires := Wire.transcoderError transcoder.oid stream :: p.wires }
  p.playPCMStream transcoder.output options.toArg

/-- Body of the transcoder `error` handler registered in
`playUnknownStream` (with `key` the captured original `stream`):
`this.destroyStream(stream); if (this.listenerCount('error') > 0)
this.emit('error', e); this.emit('warn', ...)`. -/
def fireTranscoderError (p : AudioPlayer) (key : Handle) (e : Nat) :
    AudioPlayer :=
  let p := p.destroyStream key
  let p := if 0 < p.errorListeners then p.emitAct (.emitError e) else p
  p.emitAct (.emitWarn ("prism transcoder error - " ++ toString e))

/-- Body of the dispatcher `speaking` handler:
`value => this.voiceConnection.setSpeaking(value)`. -/
def fireDispatcherSpeaking (p : AudioPlayer) (v : Bool) : AudioPlayer :=
  p.emitAct (.setSpeaking v)

/-- Body of the dispatcher `end` handler (with `key` the captured
`stream`): `() => this.destroyStream(stream)`. -/
def fireDispatcherEnd (p : AudioPlayer) (key : Handle) : AudioPlayer :=
  p.destroyStream key

/-- Body of the dispatcher `error` handler (with `key` the captured
`stream`): `() => this.destroyStream(stream)`. -/
def fireDispatcherError (p : AudioPlayer) (key : Handle) : AudioPlayer :=
  p.destroyStream key

end AudioPlayer

/-- A sample registry entry (transcoder and dispatcher both present),
used by the concrete witness theorems. -/
def sampleEntry1 : Entry :=
  { oid := 0, input := .ext 1, transcoder := some 10, dispatcher := some 20 }

/-- A sample registry entry with no transcoder. -/
def sampleEntry2 : Entry :=
  { oid := 1, input := .ext 2, dispatcher := some 21 }

/-- A sample registry entry (transcoder and dispatcher both present). -/
def sampleEntry3 : Entry :=
  { oid := 2, input := .ext 3, transcoder := some 11, dispatcher := some 22 }

/-- A sample player with two registered streams. -/
def samplePlayer : AudioPlayer :=
  { streams := [(.ext 1, sampleEntry1), (.ext 2, sampleEntry2)],
    nextOid := 5 }

/-- A sample player with three registered streams. -/
def samplePlayer3 : AudioPlayer :=
  { streams := [(.ext 1, sampleEntry1), (.ext 2, sampleEntry2),
      (.ext 3, sampleEntry3)],
    nextOid := 7 }

/-! ### Unfolding equations for the collection operations -/

@[simp] theorem collGet_nil (k : Handle) : collGet [] k = none := rfl

@[simp] theorem collGet_cons (k0 : Handle) (v0 : Entry)
    (rest : List (Handle × Entry)) (k : Handle) :
    collGet ((k0, v0) :: rest) k =
      if k0 = k then some v0 else collGet rest k := rfl

@[simp] theorem collDelete_nil (k : Handle) : collDelete [] k = [] := rfl

@[simp] theorem collDelete_cons (k0 : Handle) (v0 : Entry)
    (rest : List (Handle × Entry)) (k : Handle) :
    collDelete ((k0, v0) :: rest) k =
      if k0 = k then rest else (k0, v0) :: collDelete rest k := rfl

@[simp] theorem collSet_nil (k : Handle) (v : Entry) :
    collSet [] k v = [(k, v)] := rfl

@[simp] theorem collSet_cons (k0 : Handle) (v0 : Entry)
    (rest : List (Handle × Entry)) (k : Handle) (v : Entry) :
    collSet ((k0, v0) :: rest) k v =
      if k0 = k then (k0, v) :: rest else (k0, v0) :: collSet rest k v := rfl

@[simp] theorem collUpdate_nil (k : Handle) (f : Entry → Entry) :
    collUpdate [] k f = [] := rfl

@[simp] theorem collUpdate_cons (k0 : Handle) (v0 : Entry)
    (rest : List (Handle × Entry)) (k : Handle) (f : Entry → Entry) :
    collUpdate ((k0, v0) :: rest) k f =
      (if k0 = k then (k0, f v0) else (k0, v0)) :: collUpdate rest k f := by
  by_cases h : k0 = k <;> simp [collUpdate, h]

@[simp] theorem collKeys_nil : collKeys [] = [] := rfl

@[simp] theorem collKeys_cons (k0 : Handle) (v0 : Entry)
    (rest : List (Handle × Entry)) :
    collKeys ((k0, v0) :: rest) = k0 :: collKeys rest := rfl

/-! ### Collection lemmas -/

theorem collGet_eq_none_iff (c : List (Handle × Entry)) (k : Handle) :
    collGet c k = none ↔ k ∉ collKeys c := by
  induction c with
  | nil => simp
  | cons kv rest ih =>
    obtain ⟨k0, v0⟩ := kv
    by_cases h : k0 = k
    · subst h
      simp
    · rw [collGet_cons, if_neg h, collKeys_cons, ih]
      constructor
      · intro hnone hmem
        rcases List.mem_cons.mp hmem with h1 | h1
        · exact h h1.symm
        · exact hnone h1
      · intro hn hmem
        exact hn (List.mem_cons_of_mem _ hmem)

theorem collGet_mem {c : List (Handle × Entry)} {k : Handle} {e : Entry}
    (h : collGet c k = some e) : (k, e) ∈ c := by
  induction c with
  | nil => simp at h
  | cons kv rest ih =>
    obtain ⟨k0, v0⟩ := kv
    by_cases hk : k0 = k
    · subst hk
      rw [collGet_cons, if_pos rfl] at h
      cases h
      exact List.mem_cons_self _ _
    · rw [collGet_cons, if_neg hk] at h
      exact List.mem_cons_of_mem _ (ih h)

theorem mem_collGet {c : List (Handle × Entry)} {k : Handle} {e : Entry}
    (hnd : (collKeys c).Nodup) (h : (k, e) ∈ c) : collGet c k = some e := by
  induction c with
  | nil => simp at h
  | cons kv rest ih =>
    obtain ⟨k0, v0⟩ := kv
    rw [collKeys_cons] at hnd
    obtain ⟨hk0, hrest⟩ := List.nodup_cons.mp hnd
    rcases List.mem_cons.mp h with h1 | h1
    · cases h1
      rw [collGet_cons, if_pos rfl]
    · have hk : k0 ≠ k := by
        intro hkk
        subst hkk
        exact hk0 (List.mem_map.mpr ⟨(k0, e), h1, rfl⟩)
      rw [collGet_cons, if_neg hk]
      exact ih hrest h1

theorem collDelete_sublist (c : List (Handle × Entry)) (k : Handle) :
    (collDelete c k).Sublist c := by
  induction c with
  | nil => simp
  | cons kv rest ih =>
    obtain ⟨k0, v0⟩ := kv
    rw [collDelete_cons]
    by_cases h : k0 = k
    · rw [if_pos h]
      exact (List.Sublist.refl _).cons _
    · rw [if_neg h]
      exact ih.cons₂ _

theorem mem_collDelete_subset {c : List (Handle × Entry)} {k : Handle}
    {kv : Handle × Entry} (h : kv ∈ collDelete c k) : kv ∈ c :=
  (collDelete_sublist c k).subset h

theorem collKeys_collDelete_sublist (c : List (Handle × Entry)) (k : Handle) :
    (collKeys (collDelete c k)).Sublist (collKeys c) :=
  (collDelete_sublist c k).map _

theorem collGet_collDelete_ne {c : List (Handle × Entry)} {k k' : Handle}
    (h : k' ≠ k) : collGet (collDelete c k) k' = collGet c k' := by
  induction c with
  | nil => simp
  | cons kv rest ih =>
    obtain ⟨k0, v0⟩ := kv
    by_cases hk : k0 = k
    · subst hk
      rw [collDelete_cons, if_pos rfl, collGet_cons,
        if_neg (fun hh => h hh.symm)]
    · rw [collDelete_cons, if_neg hk, collGet_cons, collGet_cons, ih]

theorem collGet_collDelete_self {c : List (Handle × Entry)} {k : Handle}
    (hnd : (collKeys c).Nodup) : collGet (collDelete c k) k = none := by
  induction c with
  | nil => simp
  | cons kv rest ih =>
    obtain ⟨k0, v0⟩ := kv
    rw [collKeys_cons] at hnd
    obtain ⟨hk0, hrest⟩ := List.nodup_cons.mp hnd
    by_cases hk : k0 = k
    · subst hk
      rw [collDelete_cons, if_pos rfl, collGet_eq_none_iff]
      exact hk0
    · rw [collDelete_cons, if_neg hk, collGet_cons, if_neg hk]
      exact ih hrest

theorem collGet_collDelete_none {c : List (Handle × Entry)} {k k0 : Handle}
    (h : collGet c k = none) : collGet (collDelete c k0) k = none := by
  rw [collGet_eq_none_iff] at h ⊢
  intro hmem
  exact h ((collKeys_collDelete_sublist c k0).subset hmem)

theorem mem_collDelete_of_ne {c : List (Handle × Entry)} {k k0 : Handle}
    {e : Entry} (h : (k, e) ∈ c) (hne : k ≠ k0) : (k, e) ∈ collDelete c k0 := by
  induction c with
  | nil => simp at h
  | cons kv rest ih =>
    obtain ⟨k1, v1⟩ := kv
    by_cases hk : k1 = k0
    · rw [collDelete_cons, if_pos hk]
      rcases List.mem_cons.mp h with h1 | h1
      · cases h1
        exact (hne hk).elim
      · exact h1
    · rw [collDelete_cons, if_neg hk]
      rcases List.mem_cons.mp h with h1 | h1
      · exact h1 ▸ List.mem_cons_self _ _
      · exact List.mem_cons_of_mem _ (ih h1)

theorem collGet_collSet_self (c : List (Handle × Entry)) (k : Handle)
    (v : Entry) : collGet (collSet c k v) k = some v := by
  induction c with
  | nil => simp
  | cons kv rest ih =>
    obtain ⟨k0, v0⟩ := kv
    by_cases hk : k0 = k
    · rw [collSet_cons, if_pos hk, collGet_cons, if_pos hk]
    · rw [collSet_cons, if_neg hk, collGet_cons, if_neg hk, ih]

theorem mem_collSet {c : List (Handle × Entry)} {k : Handle} {v : Entry}
    {kv : Handle × Entry} (h : kv ∈ collSet c k v) : kv ∈ c ∨ kv = (k, v) := by
  induction c with
  | nil =>
    rw [collSet_nil] at h
    rcases List.mem_singleton.mp h with h1
    right; exact h1
  | cons kv0 rest ih =>
    obtain ⟨k0, v0⟩ := kv0
    by_cases hk : k0 = k
    · subst hk
      rw [collSet_cons, if_pos rfl] at h
      rcases List.mem_cons.mp h with h1 | h1
      · right; rw [h1]
      · left; exact List.mem_cons_of_mem _ h1
    · rw [collSet_cons, if_neg hk] at h
      rcases List.mem_cons.mp h with h1 | h1
      · left; exact h1 ▸ List.mem_cons_self _ _
      · rcases ih h1 with h2 | h2
        · left; exact List.mem_cons_of_mem _ h2
        · right; exact h2

theorem mem_collKeys_collSet {c : List (Handle × Entry)} {k k' : Handle}
    {v : Entry} (h : k' ∈ collKeys (collSet c k v)) :
    k' ∈ collKeys c ∨ k' = k := by
  obtain ⟨⟨kk, ee⟩, hm, hkk⟩ := List.mem_map.mp h
  rcases mem_collSet hm with h1 | h1
  · left; exact List.mem_map.mpr ⟨(kk, ee), h1, hkk⟩
  · right
    rw [h1] at hkk
    exact hkk ▸ rfl

theorem collKeys_collSet_nodup {c : List (Handle × Entry)} {k : Handle}
    {v : Entry} (hnd : (collKeys c).Nodup) :
    (collKeys (collSet c k v)).Nodup := by
  induction c with
  | nil => simp
  | cons kv rest ih =>
    obtain ⟨k0, v0⟩ := kv
    rw [collKeys_cons] at hnd
    obtain ⟨hk0, hrest⟩ := List.nodup_cons.mp hnd
    by_cases hk : k0 = k
    · rw [collSet_cons, if_pos hk, collKeys_cons]
      exact List.nodup_cons.mpr ⟨hk0, hrest⟩
    · rw [collSet_cons, if_neg hk, collKeys_cons]
      refine List.nodup_cons.mpr ⟨?_, ih hrest⟩
      intro hmem
      rcases mem_collKeys_collSet hmem with h1 | h1
      · exact hk0 h1
      · exact hk h1

theorem collKeys_collUpdate (c : List (Handle × Entry)) (k : Handle)
    (f : Entry → Entry) : collKeys (collUpdate c k f) = collKeys c := by
  induction c with
  | nil => simp
  | cons kv rest ih =>
    obtain ⟨k0, v0⟩ := kv
    rw [collUpdate_cons]
    by_cases hk : k0 = k
    · rw [if_pos hk, collKeys_cons, collKeys_cons, ih]
    · rw [if_neg hk, collKeys_cons, collKeys_cons, ih]

theorem collGet_collUpdate_self (c : List (Handle × Entry)) (k : Handle)
    (f : Entry → Entry) :
    collGet (collUpdate c k f) k = (collGet c k).map f := by
  induction c with
  | nil => simp
  | cons kv rest ih =>
    obtain ⟨k0, v0⟩ := kv
    by_cases hk : k0 = k
    · rw [collUpdate_cons, if_pos hk, collGet_cons, if_pos hk,
        collGet_cons, if_pos hk]
      rfl
    · rw [collUpdate_cons, if_neg hk, collGet_cons, if_neg hk,
        collGet_cons, if_neg hk, ih]

theorem collGet_collUpdate_ne {c : List (Handle × Entry)} {k k' : Handle}
    (f : Entry → Entry) (h : k' ≠ k) :
    collGet (collUpdate c k f) k' = collGet c k' := by
  induction c with
  | nil => simp
  | cons kv rest ih =>
    obtain ⟨k0, v0⟩ := kv
    by_cases hk : k0 = k
    · subst hk
      rw [collUpdate_cons, if_pos rfl, collGet_cons,
        if_neg (fun hh => h hh.symm), collGet_cons,
        if_neg (fun hh => h hh.symm), ih]
    · by_cases hk' : k0 = k'
      · rw [collUpdate_cons, if_neg hk, collGet_cons, if_pos hk',
          collGet_cons, if_pos hk']
      · rw [collUpdate_cons, if_neg hk, collGet_cons, if_neg hk',
          collGet_cons, if_neg hk', ih]

theorem collGet_single_of_keys {c : List (Handle × Entry)} {s : Handle}
    {e : Entry} (hall : ∀ kv ∈ c, kv.1 = s) (hnd : (collKeys c).Nodup)
    (hget : collGet c s = some e) : c = [(s, e)] := by
  match c with
  | [] => simp at hget
  | [(k0, v0)] =>
    have hk0 : k0 = s := hall (k0, v0) (by simp)
    subst hk0
    rw [collGet_cons, if_pos rfl] at hget
    cases hget
    rfl
  | (k0, v0) :: (k1, v1) :: rest =>
    have hk0 : k0 = s := hall (k0, v0) (by simp)
    have hk1 : k1 = s := hall (k1, v1) (by simp)
    subst hk0
    subst hk1
    rw [collKeys_cons, collKeys_cons] at hnd
    obtain ⟨hn, -⟩ := List.nodup_cons.mp hnd
    exact (hn (List.mem_cons_self _ _)).elim

theorem collDelete_of_not_mem {c : List (Handle × Entry)} {k : Handle}
    (h : k ∉ collKeys c) : collDelete c k = c := by
  induction c with
  | nil => simp
  | cons kv rest ih =>
    obtain ⟨k0, v0⟩ := kv
    rw [collKeys_cons] at h
    have hk : k0 ≠ k := fun hh => h (hh ▸ List.mem_cons_self _ _)
    rw [collDelete_cons, if_neg hk, ih (fun hh => h (List.mem_cons_of_mem _ hh))]

/-! ### Player state lemmas -/

namespace AudioPlayer

@[simp] theorem emitAct_streams (p : AudioPlayer) (a : Act) :
    (p.emitAct a).streams = p.streams := rfl

@[simp] theorem emitAct_nextOid (p : AudioPlayer) (a : Act) :
    (p.emitAct a).nextOid = p.nextOid := rfl

@[simp] theorem emitAct_errorListeners (p : AudioPlayer) (a : Act) :
    (p.emitAct a).errorListeners = p.errorListeners := rfl

@[simp] theorem emitAct_wires (p : AudioPlayer) (a : Act) :
    (p.emitAct a).wires = p.wires := rfl

@[simp] theorem emitAct_transcoders (p : AudioPlayer) (a : Act) :
    (p.emitAct a).transcoders = p.transcoders := rfl

@[simp] theorem emitAct_log (p : AudioPlayer) (a : Act) :
    (p.emitAct a).log = a :: p.log := rfl

theorem destroyStream_streams (p : AudioPlayer) (k : Handle) :
    (p.destroyStream k).streams = collDelete p.streams k := by
  unfold destroyStream
  cases hget : collGet p.streams k with
  | none =>
    rw [collDelete_of_not_mem ((collGet_eq_none_iff _ _).mp hget)]
  | some data =>
    obtain ⟨eoid, einp, etr, edsp⟩ := data
    cases etr <;> cases edsp <;> simp

@[simp] theorem destroyStream_nextOid (p : AudioPlayer) (k : Handle) :
    (p.destroyStream k).nextOid = p.nextOid := by
  unfold destroyStream
  cases hget : collGet p.streams k with
  | none => rfl
  | some data =>
    obtain ⟨eoid, einp, etr, edsp⟩ := data
    cases etr <;> cases edsp <;> simp

@[simp] theorem destroyStream_errorListeners (p : AudioPlayer) (k : Handle) :
    (p.destroyStream k).errorListeners = p.errorListeners := by
  unfold destroyStream
  cases hget : collGet p.streams k with
  | none => rfl
  | some data =>
    obtain ⟨eoid, einp, etr, edsp⟩ := data
    cases etr <;> cases edsp <;> simp

@[simp] theorem destroyStream_wires (p : AudioPlayer) (k : Handle) :
    (p.destroyStream k).wires = p.wires := by
  unfold destroyStream
  cases hget : collGet p.streams k with
  | none => rfl
  | some data =>
    obtain ⟨eoid, einp, etr, edsp⟩ := data
    cases etr <;> cases edsp <;> simp

@[simp] theorem destroyStream_transcoders (p : AudioPlayer) (k : Handle) :
    (p.destroyStream k).transcoders = p.transcoders := by
  unfold destroyStream
  cases hget : collGet p.streams k with
  | none => rfl
  | some data =>
    obtain ⟨eoid, einp, etr, edsp⟩ := data
    cases etr <;> cases edsp <;> simp

theorem destroyStream_log_mono {p : AudioPlayer} {k : Handle} {a : Act}
    (h : a ∈ p.log) : a ∈ (p.destroyStream k).log := by
  unfold destroyStream
  cases hget : collGet p.streams k with
  | none => exact h
  | some data =>
    obtain ⟨eoid, einp, etr, edsp⟩ := data
    cases etr <;> cases edsp <;> simp [List.mem_cons, h]

theorem destroyStream_log_provenance {p : AudioPlayer} {k : Handle} {a : Act}
    (h : a ∈ (p.destroyStream k).log) :
    a ∈ p.log ∨ ∃ e, collGet p.streams k = some e ∧
      ((∃ t, e.transcoder = some t ∧ a = .killTranscoder t) ∨
       (∃ d, e.dispatcher = some d ∧ a = .destroyDispatcher d "end")) := by
  unfold destroyStream at h
  cases hget : collGet p.streams k with
  | none =>
    rw [hget] at h
    exact Or.inl h
  | some data =>
    rw [hget] at h
    obtain ⟨eoid, einp, etr, edsp⟩ := data
    cases etr <;> cases edsp <;>
      simp only [emitAct_log, List.mem_cons] at h
    · exact Or.inl h
    · rcases h with h1 | h1
      · exact Or.inr ⟨_, rfl, Or.inr ⟨_, rfl, h1⟩⟩
      · exact Or.inl h1
    · rcases h with h1 | h1
      · exact Or.inr ⟨_, rfl, Or.inl ⟨_, rfl, h1⟩⟩
      · exact Or.inl h1
    · rcases h with h1 | h1
      · exact Or.inr ⟨_, rfl, Or.inr ⟨_, rfl, h1⟩⟩
      · rcases h1 with h2 | h2
        · exact Or.inr ⟨_, rfl, Or.inl ⟨_, rfl, h2⟩⟩
        · exact Or.inl h2

theorem destroyStream_kill_mem {p : AudioPlayer} {k : Handle} {e : Entry}
    {t : Nat} (hget : collGet p.streams k = some e)
    (ht : e.transcoder = some t) :
    Act.killTranscoder t ∈ (p.destroyStream k).log := by
  unfold destroyStream
  rw [hget]
  obtain ⟨eoid, einp, etr, edsp⟩ := e
  simp only at ht
  subst ht
  cases edsp <;> simp

theorem destroyStream_destroyDisp_mem {p : AudioPlayer} {k : Handle}
    {e : Entry} {d : Nat} (hget : collGet p.streams k = some e)
    (hd : e.dispatcher = some d) :
    Act.destroyDispatcher d "end" ∈ (p.destroyStream k).log := by
  unfold destroyStream
  rw [hget]
  obtain ⟨eoid, einp, etr, edsp⟩ := e
  simp only at hd
  subst hd
  cases etr <;> simp

theorem destroyStream_collGet_ne (p : AudioPlayer) {k k' : Handle}
    (h : k' ≠ k) :
    collGet (p.destroyStream k).streams k' = collGet p.streams k' := by
  rw [destroyStream_streams]
  exact collGet_collDelete_ne h

@[simp] theorem go_nil (p : AudioPlayer) (ex : ExceptArg) :
    destroyAllStreamsGo p ex [] = p := rfl

theorem go_cons (p : AudioPlayer) (ex : ExceptArg) (k : Handle)
    (ks : List Handle) :
    destroyAllStreamsGo p ex (k :: ks) =
      if exceptSkip ex k p.streams then destroyAllStreamsGo p ex ks
      else destroyAllStreamsGo (p.destroyStream k) ex ks := rfl

theorem go_nextOid (ex : ExceptArg) (ks : List Handle) (p : AudioPlayer) :
    (destroyAllStreamsGo p ex ks).nextOid = p.nextOid := by
  induction ks generalizing p with
  | nil => rfl
  | cons k ks ih =>
    rw [go_cons]
    by_cases h : exceptSkip ex k p.streams = true
    · rw [if_pos h, ih]
    · rw [if_neg h, ih, destroyStream_nextOid]

theorem go_errorListeners (ex : ExceptArg) (ks : List Handle)
    (p : AudioPlayer) :
    (destroyAllStreamsGo p ex ks).errorListeners = p.errorListeners := by
  induction ks generalizing p with
  | nil => rfl
  | cons k ks ih =>
    rw [go_cons]
    by_cases h : exceptSkip ex k p.streams = true
    · rw [if_pos h, ih]
    · rw [if_neg h, ih, destroyStream_errorListeners]

theorem go_wires (ex : ExceptArg) (ks : List Handle) (p : AudioPlayer) :
    (destroyAllStreamsGo p ex ks).wires = p.wires := by
  induction ks generalizing p with
  | nil => rfl
  | cons k ks ih =>
    rw [go_cons]
    by_cases h : exceptSkip ex k p.streams = true
    · rw [if_pos h, ih]
    · rw [if_neg h, ih, destroyStream_wires]

theorem go_transcoders (ex : ExceptArg) (ks : List Handle) (p : AudioPlayer) :
    (destroyAllStreamsGo p ex ks).transcoders = p.transcoders := by
  induction ks generalizing p with
  | nil => rfl
  | cons k ks ih =>
    rw [go_cons]
    by_cases h : exceptSkip ex k p.streams = true
    · rw [if_pos h, ih]
    · rw [if_neg h, ih, destroyStream_transcoders]

theorem go_log_mono {ex : ExceptArg} {ks : List Handle} {p : AudioPlayer}
    {a : Act} (h : a ∈ p.log) : a ∈ (destroyAllStreamsGo p ex ks).log := by
  induction ks generalizing p with
  | nil => exact h
  | cons k ks ih =>
    rw [go_cons]
    by_cases hs : exceptSkip ex k p.streams = true
    · rw [if_pos hs]
      exact ih h
    · rw [if_neg hs]
      exact ih (destroyStream_log_mono h)

theorem go_streams_subset {ex : ExceptArg} {ks : List Handle}
    {p : AudioPlayer} {kv : Handle × Entry}
    (h : kv ∈ (destroyAllStreamsGo p ex ks).streams) : kv ∈ p.streams := by
  induction ks generalizing p with
  | nil => exact h
  | cons k ks ih =>
    rw [go_cons] at h
    by_cases hs : exceptSkip ex k p.streams = true
    · rw [if_pos hs] at h
      exact ih h
    · rw [if_neg hs] at h
      have h1 := ih h
      rw [destroyStream_streams] at h1
      exact mem_collDelete_subset h1

theorem go_keys_sublist (ex : ExceptArg) (ks : List Handle)
    (p : AudioPlayer) :
    (collKeys (destroyAllStreamsGo p ex ks).streams).Sublist
      (collKeys p.streams) := by
  induction ks generalizing p with
  | nil => exact List.Sublist.refl _
  | cons k ks ih =>
    rw [go_cons]
    by_cases hs : exceptSkip ex k p.streams = true
    · rw [if_pos hs]
      exact ih p
    · rw [if_neg hs]
      refine (ih _).trans ?_
      rw [destroyStream_streams]
      exact collKeys_collDelete_sublist _ _

theorem go_keys_nodup {ex : ExceptArg} {ks : List Handle} {p : AudioPlayer}
    (hnd : (collKeys p.streams).Nodup) :
    (collKeys (destroyAllStreamsGo p ex ks).streams).Nodup :=
  (go_keys_sublist ex ks p).nodup hnd

theorem go_collGet_none_mono {ex : ExceptArg} {ks : List Handle}
    {p : AudioPlayer} {k : Handle} (h : collGet p.streams k = none) :
    collGet (destroyAllStreamsGo p ex ks).streams k = none := by
  rw [collGet_eq_none_iff] at h ⊢
  intro hmem
  exact h ((go_keys_sublist ex ks p).subset hmem)

theorem exceptSkip_handle (s k : Handle) (c : List (Handle × Entry)) :
    exceptSkip (.handle s) k c = (s == k) := rfl

theorem exceptSkip_absent (k : Handle) (c : List (Handle × Entry)) :
    exceptSkip .absent k c = false := rfl

theorem go_handle_collGet_self (s : Handle) (ks : List Handle)
    (p : AudioPlayer) :
    collGet (destroyAllStreamsGo p (.handle s) ks).streams s =
      collGet p.streams s := by
  induction ks generalizing p with
  | nil => rfl
  | cons k ks ih =>
    rw [go_cons]
    by_cases hs : exceptSkip (.handle s) k p.streams = true
    · rw [if_pos hs, ih]
    · rw [if_neg hs, ih]
      rw [exceptSkip_handle, beq_iff_eq] at hs
      exact destroyStream_collGet_ne p hs

theorem go_handle_collGet_none {s k : Handle} {ks : List Handle}
    {p : AudioPlayer} (hnd : (collKeys p.streams).Nodup) (hks : k ∈ ks)
    (hne : k ≠ s) :
    collGet (destroyAllStreamsGo p (.handle s) ks).streams k = none := by
  induction ks generalizing p with
  | nil => simp at hks
  | cons k0 ks ih =>
    rw [go_cons]
    by_cases hs : exceptSkip (.handle s) k0 p.streams = true
    · rw [if_pos hs]
      rw [exceptSkip_handle, beq_iff_eq] at hs
      have hk : k ∈ ks := by
        rcases List.mem_cons.mp hks with h1 | h1
        · exact ((hne (h1.trans hs.symm)).elim)
        · exact h1
      exact ih hnd hk
    · rw [if_neg hs]
      by_cases hk0 : k = k0
      · subst hk0
        apply go_collGet_none_mono
        rw [destroyStream_streams]
        exact collGet_collDelete_self hnd
      · have hk : k ∈ ks := by
          rcases List.mem_cons.mp hks with h1 | h1
          · exact (hk0 h1).elim
          · exact h1
        have hnd' : (collKeys (p.destroyStream k0).streams).Nodup := by
          rw [destroyStream_streams]
          exact (collKeys_collDelete_sublist _ _).nodup hnd
        exact ih hnd' hk

theorem go_handle_destroys {s k : Handle} {ks : List Handle}
    {p : AudioPlayer} {e : Entry} (hnd : (collKeys p.streams).Nodup)
    (hmem : (k, e) ∈ p.streams) (hks : k ∈ ks) (hne : k ≠ s) :
    (∀ t, e.transcoder = some t →
      Act.killTranscoder t ∈ (destroyAllStreamsGo p (.handle s) ks).log) ∧
    (∀ d, e.dispatcher = some d →
      Act.destroyDispatcher d "end" ∈
        (destroyAllStreamsGo p (.handle s) ks).log) := by
  induction ks generalizing p with
  | nil => simp at hks
  | cons k0 ks ih =>
    rw [go_cons]
    by_cases hs : exceptSkip (.handle s) k0 p.streams = true
    · rw [if_pos hs]
      rw [exceptSkip_handle, beq_iff_eq] at hs
      have hk : k ∈ ks := by
        rcases List.mem_cons.mp hks with h1 | h1
        · exact ((hne (h1.trans hs.symm)).elim)
        · exact h1
      exact ih hnd hmem hk
    · rw [if_neg hs]
      by_cases hk0 : k = k0
      · subst hk0
        have hget : collGet p.streams k = some e := mem_collGet hnd hmem
        constructor
        · intro t ht
          exact go_log_mono (destroyStream_kill_mem hget ht)
        · intro d hd
          exact go_log_mono (destroyStream_destroyDisp_mem hget hd)
      · have hk : k ∈ ks := by
          rcases List.mem_cons.mp hks with h1 | h1
          · exact (hk0 h1).elim
          · exact h1
        have hnd' : (collKeys (p.destroyStream k0).streams).Nodup := by
          rw [destroyStream_streams]
          exact (collKeys_collDelete_sublist _ _).nodup hnd
        have hmem' : (k, e) ∈ (p.destroyStream k0).streams := by
          rw [destroyStream_streams]
          exact mem_collDelete_of_ne hmem hk0
        exact ih hnd' hmem' hk

theorem go_handle_log_provenance {s : Handle} {ks : List Handle}
    {p : AudioPlayer} {a : Act}
    (h : a ∈ (destroyAllStreamsGo p (.handle s) ks).log) :
    a ∈ p.log ∨ ∃ k e, k ∈ ks ∧ k ≠ s ∧ (k, e) ∈ p.streams ∧
      ((∃ t, e.transcoder = some t ∧ a = .killTranscoder t) ∨
       (∃ d, e.dispatcher = some d ∧ a = .destroyDispatcher d "end")) := by
  induction ks generalizing p with
  | nil => exact Or.inl h
  | cons k0 ks ih =>
    rw [go_cons] at h
    by_cases hs : exceptSkip (.handle s) k0 p.streams = true
    · rw [if_pos hs] at h
      rcases ih h with h1 | ⟨k, e, hk, hne, hmem, hshape⟩
      · exact Or.inl h1
      · exact Or.inr ⟨k, e, List.mem_cons_of_mem _ hk, hne, hmem, hshape⟩
    · rw [if_neg hs] at h
      rw [exceptSkip_handle] at hs
      have hk0s : k0 ≠ s := by
        intro hh
        subst hh
        simp at hs
      rcases ih h with h1 | ⟨k, e, hk, hne, hmem, hshape⟩
      · rcases destroyStream_log_provenance h1 with h2 | ⟨e, hget, hshape⟩
        · exact Or.inl h2
        · exact Or.inr ⟨k0, e, List.mem_cons_self _ _, hk0s,
            collGet_mem hget, hshape⟩
      · have hmem' : (k, e) ∈ p.streams := by
          have h2 := hmem
          rw [destroyStream_streams] at h2
          exact mem_collDelete_subset h2
        exact Or.inr ⟨k, e, List.mem_cons_of_mem _ hk, hne, hmem', hshape⟩

theorem exceptSkip_keepLast (k : Handle) (c : List (Handle × Entry)) :
    exceptSkip .keepLast k c = jsEntryEq (collGet c k) (collLast c) := rfl

theorem go_keepLast :
    ∀ (c : List (Handle × Entry)), (collKeys c).Nodup →
      (c.map (fun kv => kv.2.oid)).Nodup → c ≠ [] →
      ∀ p : AudioPlayer, p.streams = c →
      ∃ kv, c.getLast? = some kv ∧
        (destroyAllStreamsGo p .keepLast (collKeys c)).streams = [kv]
  | [], _, _, hne, _, _ => (hne rfl).elim
  | [(k0, v0)], _, _, _, p, hp => by
    refine ⟨(k0, v0), rfl, ?_⟩
    rw [collKeys_cons, collKeys_nil, go_cons]
    have hskip : exceptSkip .keepLast k0 p.streams = true := by
      rw [hp, exceptSkip_keepLast, collGet_cons, if_pos rfl]
      simp [collLast, jsEntryEq]
    rw [if_pos hskip, go_nil, hp]
  | (k0, v0) :: (k1, v1) :: rest, hnd, hoid, _, p, hp => by
    rw [collKeys_cons] at hnd
    obtain ⟨hk0, hndtail⟩ := List.nodup_cons.mp hnd
    rw [List.map_cons] at hoid
    obtain ⟨ho0, hoidtail⟩ := List.nodup_cons.mp hoid
    have hp' : (p.destroyStream k0).streams = (k1, v1) :: rest := by
      rw [destroyStream_streams, hp, collDelete_cons, if_pos rfl]
    obtain ⟨kvl, hlast, hres⟩ :=
      go_keepLast ((k1, v1) :: rest) hndtail hoidtail (List.cons_ne_nil _ _)
        (p.destroyStream k0) hp'
    have hkvl_mem : kvl ∈ (k1, v1) :: rest := by
      obtain ⟨hne2, heq⟩ := List.mem_getLast?_eq_getLast
        (show kvl ∈ ((k1, v1) :: rest).getLast? from hlast)
      rw [heq]
      exact List.getLast_mem hne2
    have hoid_ne : v0.oid ≠ kvl.2.oid := by
      intro hh
      exact ho0 (hh ▸ List.mem_map.mpr ⟨kvl, hkvl_mem, rfl⟩)
    have hskip : ¬ (exceptSkip .keepLast k0 p.streams = true) := by
      rw [hp, exceptSkip_keepLast, collGet_cons, if_pos rfl]
      have hlastc : collLast ((k0, v0) :: (k1, v1) :: rest) = some kvl.2 := by
        rw [collLast, List.getLast?_cons_cons, hlast]
        rfl
      rw [hlastc]
      simp only [jsEntryEq, beq_iff_eq]
      simp [hoid_ne]
    refine ⟨kvl, ?_, ?_⟩
    · rw [List.getLast?_cons_cons, hlast]
    · rw [collKeys_cons, go_cons, hp]
      rw [← hp]
      rw [if_neg hskip]
      exact hres

theorem go_absent :
    ∀ (c : List (Handle × Entry)), (collKeys c).Nodup →
      ∀ p : AudioPlayer, p.streams = c →
      (destroyAllStreamsGo p .absent (collKeys c)).streams = []
  | [], _, p, hp => by rw [collKeys_nil, go_nil, hp]
  | (k0, v0) :: rest, hnd, p, hp => by
    rw [collKeys_cons] at hnd
    obtain ⟨-, hndtail⟩ := List.nodup_cons.mp hnd
    have hp' : (p.destroyStream k0).streams = rest := by
      rw [destroyStream_streams, hp, collDelete_cons, if_pos rfl]
    rw [collKeys_cons, go_cons,
      if_neg (by rw [exceptSkip_absent]; simp)]
    exact go_absent rest hndtail (p.destroyStream k0) hp'

theorem destroyAllStreams_def (p : AudioPlayer) (ex : ExceptArg) :
    p.destroyAllStreams ex = destroyAllStreamsGo p ex (collKeys p.streams) :=
  rfl

theorem mem_collUpdate {c : List (Handle × Entry)} {k : Handle}
    {f : Entry → Entry} {kv : Handle × Entry} (h : kv ∈ collUpdate c k f) :
    ∃ kv', kv' ∈ c ∧ kv.1 = kv'.1 := by
  obtain ⟨kv', hm, heq⟩ := List.mem_map.mp h
  by_cases hk : kv'.1 = k
  · rw [if_pos hk] at heq
    exact ⟨kv', hm, by rw [← heq]⟩
  · rw [if_neg hk] at heq
    exact ⟨kv', hm, by rw [← heq]⟩

theorem destroyAllStreams_handle_keys {p : AudioPlayer} {h : Handle}
    (hnd : (collKeys p.streams).Nodup) :
    ∀ kv ∈ (p.destroyAllStreams (.handle h)).streams, kv.1 = h := by
  intro kv hkv
  rw [destroyAllStreams_def] at hkv
  by_contra hne
  have hm : kv ∈ p.streams := go_streams_subset hkv
  have hks : kv.1 ∈ collKeys p.streams := List.mem_map.mpr ⟨kv, hm, rfl⟩
  have hnone := go_handle_collGet_none (p := p) (s := h) hnd hks hne
  rw [collGet_eq_none_iff] at hnone
  exact hnone (List.mem_map.mpr ⟨kv, hkv, rfl⟩)

theorem destroyAllStreams_nextOid (p : AudioPlayer) (ex : ExceptArg) :
    (p.destroyAllStreams ex).nextOid = p.nextOid := go_nextOid ex _ p

theorem destroyAllStreams_wires (p : AudioPlayer) (ex : ExceptArg) :
    (p.destroyAllStreams ex).wires = p.wires := go_wires ex _ p

theorem destroyAllStreams_errorListeners (p : AudioPlayer) (ex : ExceptArg) :
    (p.destroyAllStreams ex).errorListeners = p.errorListeners :=
  go_errorListeners ex _ p

theorem destroyAllStreams_transcoders (p : AudioPlayer) (ex : ExceptArg) :
    (p.destroyAllStreams ex).transcoders = p.transcoders :=
  go_transcoders ex _ p

theorem playPCMStream_snd (p : AudioPlayer) (s : Handle)
    (o : PlayOptionsArg) :
    (p.playPCMStream s o).2 =
      { oid := p.nextOid, boundStream := s, options := resolveOptions o } := by
  unfold playPCMStream
  by_cases hhas : collHas (p.destroyAllStreams (.handle s)).streams s = true <;>
    simp [hhas, destroyAllStreams_nextOid]

theorem playPCMStream_log (p : AudioPlayer) (s : Handle)
    (o : PlayOptionsArg) :
    (p.playPCMStream s o).1.log = (p.destroyAllStreams (.handle s)).log := by
  unfold playPCMStream
  by_cases hhas : collHas (p.destroyAllStreams (.handle s)).streams s = true <;>
    simp [hhas]

theorem playPCMStream_wires (p : AudioPlayer) (s : Handle)
    (o : PlayOptionsArg) :
    (p.playPCMStream s o).1.wires =
      Wire.dispatcherError p.nextOid s :: Wire.dispatcherEnd p.nextOid s ::
        Wire.dispatcherSpeaking p.nextOid :: p.wires := by
  unfold playPCMStream
  by_cases hhas : collHas (p.destroyAllStreams (.handle s)).streams s = true <;>
    simp [hhas, destroyAllStreams_nextOid, destroyAllStreams_wires]

theorem playPCMStream_errorListeners (p : AudioPlayer) (s : Handle)
    (o : PlayOptionsArg) :
    (p.playPCMStream s o).1.errorListeners = p.errorListeners := by
  unfold playPCMStream
  by_cases hhas : collHas (p.destroyAllStreams (.handle s)).streams s = true <;>
    simp [hhas, destroyAllStreams_errorListeners]

theorem playPCMStream_transcoders (p : AudioPlayer) (s : Handle)
    (o : PlayOptionsArg) :
    (p.playPCMStream s o).1.transcoders = p.transcoders := by
  unfold playPCMStream
  by_cases hhas : collHas (p.destroyAllStreams (.handle s)).streams s = true <;>
    simp [hhas, destroyAllStreams_transcoders]

theorem playPCMStream_streams (p : AudioPlayer) (s : Handle)
    (o : PlayOptionsArg) :
    (p.playPCMStream s o).1.streams =
      collUpdate
        (if collHas (p.destroyAllStreams (.handle s)).streams s then
          (p.destroyAllStreams (.handle s)).streams
        else
          collSet (p.destroyAllStreams (.handle s)).streams s
            { oid := p.nextOid + 1, input := s,
              dispatcher := some p.nextOid })
        s (fun e => { e with dispatcher := some p.nextOid }) := by
  unfold playPCMStream
  by_cases hhas : collHas (p.destroyAllStreams (.handle s)).streams s = true <;>
    simp [hhas, destroyAllStreams_nextOid]

theorem destroyStream_of_none {p : AudioPlayer} {h : Handle}
    (hnone : collGet p.streams h = none) : p.destroyStream h = p := by
  unfold destroyStream
  rw [hnone]

theorem resolveOptions_toArg (o : StreamOptions) :
    resolveOptions o.toArg = o := rfl

/-! ### Claim theorems -/

/-- C4: `destroyStream(h)` leaves the registry unchanged when `h` has no
entry; when `h` has an entry it kills the entry's transcoder if present,
destroys the entry's dispatcher with reason `"end"` if present, and
removes the entry; and it is idempotent: a second call on the same handle
changes nothing. -/
theorem destroyStream_cases_and_idempotent (p : AudioPlayer) (h : Handle)
    (hnd : (collKeys p.streams).Nodup) :
    (collGet p.streams h = none → p.destroyStream h = p) ∧
    (∀ e, collGet p.streams h = some e →
      (p.destroyStream h).streams = collDelete p.streams h ∧
      collGet (p.destroyStream h).streams h = none ∧
      (∀ t, e.transcoder = some t →
        Act.killTranscoder t ∈ (p.destroyStream h).log) ∧
      (∀ d, e.dispatcher = some d →
        Act.destroyDispatcher d "end" ∈ (p.destroyStream h).log)) ∧
    (p.destroyStream h).destroyStream h = p.destroyStream h := by
  refine ⟨fun hnone => destroyStream_of_none hnone, ?_, ?_⟩
  · intro e hget
    refine ⟨destroyStream_streams p h, ?_,
      fun t ht => destroyStream_kill_mem hget ht,
      fun d hd => destroyStream_destroyDisp_mem hget hd⟩
    rw [destroyStream_streams]
    exact collGet_collDelete_self hnd
  · apply destroyStream_of_none
    rw [destroyStream_streams]
    exact collGet_collDelete_self hnd

theorem destroyStream_cases_and_idempotent_witness :
    (samplePlayer.destroyStream (.ext 1)).destroyStream (.ext 1) =
      samplePlayer.destroyStream (.ext 1) ∧
    Act.killTranscoder 10 ∈ (samplePlayer.destroyStream (.ext 1)).log ∧
    Act.destroyDispatcher 20 "end" ∈
      (samplePlayer.destroyStream (.ext 1)).log := by
  have h := destroyStream_cases_and_idempotent samplePlayer (.ext 1)
    (by decide)
  exact ⟨h.2.2, (h.2.1 sampleEntry1 (by decide)).2.2.1 10 rfl,
    (h.2.1 sampleEntry1 (by decide)).2.2.2 20 rfl⟩

/-- C9: frame property of `destroyStream(h)`: every entry with a key
other than `h` is left exactly as it was, and every transcoder kill or
dispatcher destruction logged by the call concerns the entry stored at
`h` (or was already in the log before the call). -/
theorem destroyStream_frame (p : AudioPlayer) (h k : Handle) :
    (k ≠ h → collGet (p.destroyStream h).streams k = collGet p.streams k) ∧
    (∀ t, Act.killTranscoder t ∈ (p.destroyStream h).log →
      Act.killTranscoder t ∈ p.log ∨
      ∃ e, collGet p.streams h = some e ∧ e.transcoder = some t) ∧
    (∀ d r, Act.destroyDispatcher d r ∈ (p.destroyStream h).log →
      Act.destroyDispatcher d r ∈ p.log ∨
      ∃ e, collGet p.streams h = some e ∧ e.dispatcher = some d ∧
        r = "end") := by
  refine ⟨fun hne => destroyStream_collGet_ne p hne, ?_, ?_⟩
  · intro t hmem
    rcases destroyStream_log_provenance hmem with h1 | ⟨e, hget, hsh⟩
    · exact Or.inl h1
    · rcases hsh with ⟨t', ht', heq⟩ | ⟨d', hd', heq⟩
      · injection heq with h2
        exact Or.inr ⟨e, hget, h2 ▸ ht'⟩
      · exact Act.noConfusion heq
  · intro d r hmem
    rcases destroyStream_log_provenance hmem with h1 | ⟨e, hget, hsh⟩
    · exact Or.inl h1
    · rcases hsh with ⟨t', ht', heq⟩ | ⟨d', hd', heq⟩
      · exact Act.noConfusion heq
      · injection heq with h2 h3
        exact Or.inr ⟨e, hget, h2 ▸ hd', h3⟩

theorem destroyStream_frame_witness :
    collGet (samplePlayer.destroyStream (.ext 1)).streams (.ext 2) =
      some sampleEntry2 := by
  have h := (destroyStream_frame samplePlayer (.ext 1) (.ext 2)).1
    (by decide)
  rw [h]
  decide

/-- C2 counterexample: the claim says that when at least one `error`
listener is registered no `warn` signal is emitted for the failure; but
with one `error` listener registered, a transcoder error still puts both
an `error` and a `warn` emission in the log. -/
theorem fireTranscoderError_warn_despite_listener :
    Wire.transcoderError 0 (.ext 0) ∈
      (AudioPlayer.playUnknownStream { errorListeners := 1 }
        (.ext 0) {}).1.wires ∧
    Act.emitError 3 ∈
      ((AudioPlayer.playUnknownStream { errorListeners := 1 }
        (.ext 0) {}).1.fireTranscoderError (.ext 0) 3).log ∧
    Act.emitWarn ("prism transcoder error - " ++ toString 3) ∈
      ((AudioPlayer.playUnknownStream { errorListeners := 1 }
        (.ext 0) {}).1.fireTranscoderError (.ext 0) 3).log := by
  decide

/-- C2 amended: on a transcoder error the `warn` signal is emitted
unconditionally, and the `error` signal is emitted exactly when at least
one `error` listener is registered on the player. -/
theorem fireTranscoderError_log (p : AudioPlayer) (key : Handle) (e : Nat) :
    (p.fireTranscoderError key e).log =
      Act.emitWarn ("prism transcoder error - " ++ toString e) ::
        (if 0 < p.errorListeners then
          Act.emitError e :: (p.destroyStream key).log
        else (p.destroyStream key).log) := by
  by_cases h : 0 < p.errorListeners <;>
    simp [fireTranscoderError, destroyStream_errorListeners, h]

/-- C3: at the failing input the transcoder error handler's cleanup is a
no-op.  After `playUnknownStream` on a fresh player with input `ext 0`,
the registry holds one entry keyed by the transcoder output `out 0`, and
the registered error handler captured the original input `ext 0`; firing
it leaves the entry in the registry (transcoder `0` not killed,
dispatcher `2` not destroyed — the log holds only the `warn` emission),
because `destroyStream(ext 0)` looks up a key that is never in the
registry. -/
theorem fireTranscoderError_entry_leak :
    Wire.transcoderError 0 (.ext 0) ∈
      (AudioPlayer.playUnknownStream {} (.ext 0) {}).1.wires ∧
    ((AudioPlayer.playUnknownStream {} (.ext 0) {}).1.fireTranscoderError
        (.ext 0) 7).streams =
      [(Handle.out 0,
        { oid := 1, input := .ext 0, transcoder := some 0, dispatcher := some 2 })] ∧
    ((AudioPlayer.playUnknownStream {} (.ext 0) {}).1.fireTranscoderError
        (.ext 0) 7).log =
      [Act.emitWarn ("prism transcoder error - " ++ toString 7)] := by
  decide

/-- C6 counterexample: on an empty registry `currentTranscoder` does not
return an absent value — reading `.transcoder` of the undefined result of
`last()` throws a `TypeError`. -/
theorem currentTranscoder_empty_throws :
    AudioPlayer.currentTranscoder {} = Except.error JsError.typeError := rfl

/-- C6 amended: `currentTranscoder` is a read-only accessor returning the
transcoder field of the most recently inserted entry whenever the
registry is non-empty; on an empty registry the property access fails
with a `TypeError` instead of returning an absent value. -/
theorem currentTranscoder_spec :
    (∀ (p : AudioPlayer) (c : List (Handle × Entry)) (k : Handle)
      (e : Entry), p.streams = c ++ [(k, e)] →
      p.currentTranscoder = Except.ok e.transcoder) ∧
    (∀ p : AudioPlayer, p.streams = [] →
      p.currentTranscoder = Except.error JsError.typeError) := by
  constructor
  · intro p c k e hp
    have hl : collLast p.streams = some e := by
      rw [hp, collLast, List.getLast?_concat]
      rfl
    unfold AudioPlayer.currentTranscoder
    rw [hl]
  · intro p hp
    have hl : collLast p.streams = none := by
      rw [hp, collLast]
      rfl
    unfold AudioPlayer.currentTranscoder
    rw [hl]

theorem currentTranscoder_spec_witness :
    samplePlayer3.currentTranscoder = Except.ok (some 11) ∧
    AudioPlayer.currentTranscoder { nextOid := 5 } =
      Except.error JsError.typeError := by
  constructor
  · exact currentTranscoder_spec.1 samplePlayer3
      [(.ext 1, sampleEntry1), (.ext 2, sampleEntry2)] (.ext 3)
      sampleEntry3 rfl
  · exact currentTranscoder_spec.2 { nextOid := 5 } rfl

theorem destroyAllStreams_handle_collGet_self (p : AudioPlayer)
    (s : Handle) :
    collGet (p.destroyAllStreams (.handle s)).streams s =
      collGet p.streams s :=
  go_handle_collGet_self s _ p

theorem playPCMStream_entry_of_get {p : AudioPlayer} {s : Handle}
    {o : PlayOptionsArg} {e : Entry} (hget : collGet p.streams s = some e) :
    collGet (p.playPCMStream s o).1.streams s =
      some { e with dispatcher := some p.nextOid } := by
  rw [playPCMStream_streams]
  have hq : collGet (p.destroyAllStreams (.handle s)).streams s = some e := by
    rw [destroyAllStreams_handle_collGet_self, hget]
  have hhas : collHas (p.destroyAllStreams (.handle s)).streams s = true := by
    rw [collHas, hq]
    rfl
  rw [if_pos hhas, collGet_collUpdate_self, hq]
  rfl

theorem playPCMStream_entry_of_none {p : AudioPlayer} {s : Handle}
    {o : PlayOptionsArg} (hget : collGet p.streams s = none) :
    collGet (p.playPCMStream s o).1.streams s =
      some { oid := p.nextOid + 1, input := s, transcoder := none,
             dispatcher := some p.nextOid } := by
  rw [playPCMStream_streams]
  have hq : collGet (p.destroyAllStreams (.handle s)).streams s = none := by
    rw [destroyAllStreams_handle_collGet_self, hget]
  have hhas : ¬ collHas (p.destroyAllStreams (.handle s)).streams s = true := by
    rw [collHas, hq]
    simp
  rw [if_neg hhas, collGet_collUpdate_self, collGet_collSet_self]
  rfl

theorem playPCMStream_keys_all {p : AudioPlayer} {s : Handle}
    {o : PlayOptionsArg} (hnd : (collKeys p.streams).Nodup) :
    ∀ kv ∈ (p.playPCMStream s o).1.streams, kv.1 = s := by
  intro kv hkv
  rw [playPCMStream_streams] at hkv
  obtain ⟨kv', hm, hkey⟩ := mem_collUpdate hkv
  rw [hkey]
  by_cases hhas : collHas (p.destroyAllStreams (.handle s)).streams s = true
  · rw [if_pos hhas] at hm
    exact destroyAllStreams_handle_keys hnd kv' hm
  · rw [if_neg hhas] at hm
    rcases mem_collSet hm with h1 | h1
    · exact destroyAllStreams_handle_keys hnd kv' h1
    · rw [h1]

theorem destroyAllStreams_keys_nodup {p : AudioPlayer} {ex : ExceptArg}
    (hnd : (collKeys p.streams).Nodup) :
    (collKeys (p.destroyAllStreams ex).streams).Nodup := by
  rw [destroyAllStreams_def]
  exact go_keys_nodup hnd

theorem playPCMStream_keys_nodup {p : AudioPlayer} {s : Handle}
    {o : PlayOptionsArg} (hnd : (collKeys p.streams).Nodup) :
    (collKeys (p.playPCMStream s o).1.streams).Nodup := by
  rw [playPCMStream_streams, collKeys_collUpdate]
  by_cases hhas : collHas (p.destroyAllStreams (.handle s)).streams s = true
  · rw [if_pos hhas]
    exact destroyAllStreams_keys_nodup hnd
  · rw [if_neg hhas]
    exact collKeys_collSet_nodup (destroyAllStreams_keys_nodup hnd)

/-- C1: after `playPCMStream(s, opts)` returns, the registry contains
exactly one entry, keyed by `s`; every entry previously stored under a
different handle has been removed, its transcoder killed if it had one
and its dispatcher destroyed if it had one. -/
theorem playPCMStream_single_entry (p : AudioPlayer) (s : Handle)
    (o : PlayOptionsArg) (hnd : (collKeys p.streams).Nodup) :
    (∃ e, (p.playPCMStream s o).1.streams = [(s, e)]) ∧
    ∀ k e, (k, e) ∈ p.streams → k ≠ s →
      collGet (p.playPCMStream s o).1.streams k = none ∧
      (∀ t, e.transcoder = some t →
        Act.killTranscoder t ∈ (p.playPCMStream s o).1.log) ∧
      (∀ d, e.dispatcher = some d →
        Act.destroyDispatcher d "end" ∈ (p.playPCMStream s o).1.log) := by
  constructor
  · cases hget : collGet p.streams s with
    | some e =>
      exact ⟨_, collGet_single_of_keys (playPCMStream_keys_all hnd)
        (playPCMStream_keys_nodup hnd) (playPCMStream_entry_of_get hget)⟩
    | none =>
      exact ⟨_, collGet_single_of_keys (playPCMStream_keys_all hnd)
        (playPCMStream_keys_nodup hnd) (playPCMStream_entry_of_none hget)⟩
  · intro k e hmem hne
    have hks : k ∈ collKeys p.streams := List.mem_map.mpr ⟨(k, e), hmem, rfl⟩
    refine ⟨?_, ?_, ?_⟩
    · rw [collGet_eq_none_iff]
      intro hkmem
      obtain ⟨kv, hkv, hk⟩ := List.mem_map.mp hkmem
      exact hne (hk ▸ playPCMStream_keys_all hnd kv hkv)
    · intro t ht
      rw [playPCMStream_log, destroyAllStreams_def]
      exact (go_handle_destroys hnd hmem hks hne).1 t ht
    · intro d hd
      rw [playPCMStream_log, destroyAllStreams_def]
      exact (go_handle_destroys hnd hmem hks hne).2 d hd

theorem playPCMStream_single_entry_witness :
    (∃ e, (samplePlayer.playPCMStream (.ext 1) {}).1.streams =
      [(.ext 1, e)]) ∧
    Act.destroyDispatcher 21 "end" ∈
      (samplePlayer.playPCMStream (.ext 1) {}).1.log := by
  have h := playPCMStream_single_entry samplePlayer (.ext 1) {} (by decide)
  exact ⟨h.1,
    (h.2 (.ext 2) sampleEntry2 (by decide) (by decide)).2.2 21 rfl⟩

/-- C5: `destroyAllStreams(except)` by case: with a specific handle it
destroys every entry except the one stored under that handle; with the
keep-most-recent sentinel (`true`) it leaves, for every non-empty
registry, exactly the most recently inserted entry; with `except` absent
it empties the registry. -/
theorem destroyAllStreams_cases :
    (∀ (p : AudioPlayer) (h : Handle), (collKeys p.streams).Nodup →
      (∀ kv ∈ (p.destroyAllStreams (.handle h)).streams, kv.1 = h) ∧
      collGet (p.destroyAllStreams (.handle h)).streams h =
        collGet p.streams h ∧
      (∀ k, k ∈ collKeys p.streams → k ≠ h →
        collGet (p.destroyAllStreams (.handle h)).streams k = none)) ∧
    (∀ p : AudioPlayer, (collKeys p.streams).Nodup →
      (p.streams.map (fun kv => kv.2.oid)).Nodup → p.streams ≠ [] →
      ∃ kv, p.streams.getLast? = some kv ∧
        (p.destroyAllStreams .keepLast).streams = [kv]) ∧
    (∀ p : AudioPlayer, (collKeys p.streams).Nodup →
      (p.destroyAllStreams .absent).streams = []) := by
  refine ⟨?_, ?_, ?_⟩
  · intro p h hnd
    exact ⟨destroyAllStreams_handle_keys hnd,
      destroyAllStreams_handle_collGet_self p h,
      fun k hk hne => go_handle_collGet_none hnd hk hne⟩
  · intro p hnd hoid hne
    exact go_keepLast p.streams hnd hoid hne p rfl
  · intro p hnd
    exact go_absent p.streams hnd p rfl

theorem destroyAllStreams_cases_witness :
    collGet (samplePlayer3.destroyAllStreams
      (.handle (.ext 2))).streams (.ext 1) = none ∧
    (∃ kv, samplePlayer3.streams.getLast? = some kv ∧
      (samplePlayer3.destroyAllStreams .keepLast).streams = [kv]) ∧
    (samplePlayer3.destroyAllStreams .absent).streams = [] := by
  refine ⟨?_, ?_, ?_⟩
  · exact (destroyAllStreams_cases.1 samplePlayer3 (.ext 2) (by decide)).2.2
      (.ext 1) (by decide) (by decide)
  · exact destroyAllStreams_cases.2.1 samplePlayer3 (by decide) (by decide)
      (by decide)
  · exact destroyAllStreams_cases.2.2 samplePlayer3 (by decide)

theorem playUnknownStream_eq (p : AudioPlayer) (s : Handle)
    (o : PlayOptionsArg) :
    p.playUnknownStream s o =
      AudioPlayer.playPCMStream
        { p with
          nextOid := p.nextOid + 2,
          transcoders :=
            { oid := p.nextOid, media := s,
              args := ffmpegArguments ++
                ["-ss", toString (resolveOptions o).seek],
              output := .out p.nextOid } :: p.transcoders,
          streams := collSet p.streams (.out p.nextOid)
            { oid := p.nextOid + 1, input := s,
              transcoder := some p.nextOid, dispatcher := none },
          wires := Wire.transcoderError p.nextOid s :: p.wires }
        (.out p.nextOid) (resolveOptions o).toArg := rfl

/-- C7: `playUnknownStream(input, opts)` starts a transcoder configured
with the canonical PCM format (`s16le`, 48000 Hz, 2 channels) and with
the seek option passed through as the `-ss` start offset, registers the
transcoder's PCM output as a registry entry holding the transcoder and
the original input, then delegates to `playPCMStream` on that PCM output
with the same (resolved) options and returns its result. -/
theorem playUnknownStream_spec (p : AudioPlayer) (s : Handle)
    (o : PlayOptionsArg) :
    ∃ t : Transcoder,
      t ∈ (p.playUnknownStream s o).1.transcoders ∧
      t.media = s ∧
      t.args = ffmpegArguments ++
        ["-ss", toString (resolveOptions o).seek] ∧
      List.IsInfix ["-f", "s16le", "-ar", "48000", "-ac", "2"] t.args ∧
      Wire.transcoderError t.oid s ∈ (p.playUnknownStream s o).1.wires ∧
      (∃ e, collGet (p.playUnknownStream s o).1.streams t.output = some e ∧
        e.transcoder = some t.oid ∧ e.input = s ∧
        e.dispatcher = some (p.playUnknownStream s o).2.oid) ∧
      (p.playUnknownStream s o).2.boundStream = t.output ∧
      (p.playUnknownStream s o).2.options = resolveOptions o ∧
      (∃ q : AudioPlayer,
        p.playUnknownStream s o =
          q.playPCMStream t.output (resolveOptions o).toArg ∧
        collGet q.streams t.output =
          some { oid := p.nextOid + 1, input := s,
                 transcoder := some t.oid, dispatcher := none }) := by
  have hget : collGet
      (collSet p.streams (.out p.nextOid)
        { oid := p.nextOid + 1, input := s,
          transcoder := some p.nextOid, dispatcher := none })
      (.out p.nextOid) =
      some { oid := p.nextOid + 1, input := s,
             transcoder := some p.nextOid, dispatcher := none } :=
    collGet_collSet_self _ _ _
  refine ⟨{ oid := p.nextOid, media := s,
            args := ffmpegArguments ++
              ["-ss", toString (resolveOptions o).seek],
            output := .out p.nextOid }, ?_, rfl, rfl, ?_, ?_, ?_, ?_, ?_, ?_⟩
  · rw [playUnknownStream_eq, playPCMStream_transcoders]
    exact List.mem_cons_self _ _
  · refine ⟨["-analyzeduration", "0", "-loglevel", "0"],
      ["-ss", toString (resolveOptions o).seek], ?_⟩
    rfl
  · rw [playUnknownStream_eq, playPCMStream_wires]
    simp
  · rw [playUnknownStream_eq]
    refine ⟨_, playPCMStream_entry_of_get hget, rfl, rfl, ?_⟩
    rw [playPCMStream_snd]
  · rw [playUnknownStream_eq, playPCMStream_snd]
  · rw [playUnknownStream_eq, playPCMStream_snd]
    exact resolveOptions_toArg _
  · exact ⟨_, playUnknownStream_eq p s o, hget⟩

/-- C8: `playPCMStream(s, opts)` returns a dispatcher bound to `s`,
stores that dispatcher in the registry entry for `s`, wires the
dispatcher's `speaking` signal to the voice connection's `setSpeaking`,
and wires both `end` and `error` to `destroyStream(s)`. -/
theorem playPCMStream_wiring (p : AudioPlayer) (s : Handle)
    (o : PlayOptionsArg) :
    (p.playPCMStream s o).2.boundStream = s ∧
    (∃ e, collGet (p.playPCMStream s o).1.streams s = some e ∧
      e.dispatcher = some (p.playPCMStream s o).2.oid) ∧
    Wire.dispatcherSpeaking (p.playPCMStream s o).2.oid ∈
      (p.playPCMStream s o).1.wires ∧
    Wire.dispatcherEnd (p.playPCMStream s o).2.oid s ∈
      (p.playPCMStream s o).1.wires ∧
    Wire.dispatcherError (p.playPCMStream s o).2.oid s ∈
      (p.playPCMStream s o).1.wires ∧
    (∀ (q : AudioPlayer) (v : Bool),
      q.fireDispatcherSpeaking v = q.emitAct (.setSpeaking v)) ∧
    (∀ q : AudioPlayer, q.fireDispatcherEnd s = q.destroyStream s) ∧
    (∀ q : AudioPlayer, q.fireDispatcherError s = q.destroyStream s) := by
  refine ⟨by rw [playPCMStream_snd], ?_, ?_, ?_, ?_,
    fun q v => rfl, fun q => rfl, fun q => rfl⟩
  · cases hget : collGet p.streams s with
    | some e =>
      exact ⟨_, playPCMStream_entry_of_get hget, by rw [playPCMStream_snd]⟩
    | none =>
      exact ⟨_, playPCMStream_entry_of_none hget, by rw [playPCMStream_snd]⟩
  · rw [playPCMStream_wires, playPCMStream_snd]
    simp [List.mem_cons]
  · rw [playPCMStream_wires, playPCMStream_snd]
    simp [List.mem_cons]
  · rw [playPCMStream_wires, playPCMStream_snd]
    simp [List.mem_cons]

/-- C10: when `playPCMStream(s, opts)` is called while the registry
already holds an entry for the same key `s` whose dispatcher is `d0`
(and no other entry references `d0`), that previous dispatcher is never
destroyed by the call — the entry object merely has its dispatcher field
overwritten with the new dispatcher — while every entry under a
different key is removed. -/
theorem playPCMStream_same_key_overwrite (p : AudioPlayer) (s : Handle)
    (o : PlayOptionsArg) (e0 : Entry) (d0 : Nat)
    (hnd : (collKeys p.streams).Nodup)
    (hget : collGet p.streams s = some e0)
    (_hd0 : e0.dispatcher = some d0)
    (hown : ∀ kv ∈ p.streams, kv.1 ≠ s → kv.2.dispatcher ≠ some d0) :
    (∀ r, Act.destroyDispatcher d0 r ∈ (p.playPCMStream s o).1.log →
      Act.destroyDispatcher d0 r ∈ p.log) ∧
    (p.playPCMStream s o).2.oid = p.nextOid ∧
    collGet (p.playPCMStream s o).1.streams s =
      some { e0 with dispatcher := some p.nextOid } ∧
    (∀ k e, (k, e) ∈ p.streams → k ≠ s →
      collGet (p.playPCMStream s o).1.streams k = none) := by
  refine ⟨?_, by rw [playPCMStream_snd], playPCMStream_entry_of_get hget, ?_⟩
  · intro r hmem
    rw [playPCMStream_log, destroyAllStreams_def] at hmem
    rcases go_handle_log_provenance hmem with h1 | ⟨k, e, hk, hne, hm, hsh⟩
    · exact h1
    · rcases hsh with ⟨t, ht, heq⟩ | ⟨d, hd, heq⟩
      · exact Act.noConfusion heq
      · injection heq with h2 h3
        exact ((hown (k, e) hm hne) (h2 ▸ hd)).elim
  · intro k e hm hne
    rw [collGet_eq_none_iff]
    intro hkmem
    obtain ⟨kv, hkv, hk⟩ := List.mem_map.mp hkmem
    exact hne (hk ▸ playPCMStream_keys_all hnd kv hkv)

theorem playPCMStream_same_key_overwrite_witness :
    (samplePlayer.playPCMStream (.ext 1) {}).2.oid = 5 ∧
    collGet (samplePlayer.playPCMStream (.ext 1) {}).1.streams (.ext 1) =
      some { oid := 0, input := .ext 1, transcoder := some 10,
             dispatcher := some 5 } ∧
    (∀ r, Act.destroyDispatcher 20 r ∈
      (samplePlayer.playPCMStream (.ext 1) {}).1.log →
      Act.destroyDispatcher 20 r ∈ samplePlayer.log) := by
  have h := playPCMStream_same_key_overwrite samplePlayer (.ext 1) {}
    sampleEntry1 20 (by decide) (by decide) (by decide) (by decide)
  exact ⟨h.2.1, h.2.2.1, h.1⟩

end AudioPlayer
